import Mathlib

/-!
Shallow embedding of the infinite spaced-repetition scheduler of the
DSA-AI repository: the per-card scheduling state and SM-2-style grading
transition (client store, `recordReviewResult`, `initialReviewState`,
`addGeneratedReviewCards`), and the card-selection functions
(`getNextCard`, `weightedRandomByOverdue`) from
`InfiniteReviewSession.tsx`.

Numbers: timestamps (ms) and day-intervals are integers; the SM-2 ease
factor and the selection weights are rationals, modelling the decimal
literals of the source (0.1, 0.08, 0.02, 1.15, 0.5) exactly. `Math.round`
(used only on nonnegative inputs) is floor of x + 1/2.
-/

namespace DSA

/-- Grades of the review UI: ReviewGrade in types.ts. -/
inductive ReviewGrade
  | again
  | hard
  | good
  | easy
  deriving DecidableEq, Repr

/-- Scheduling phase of a card: the phase field of ReviewCardState. -/
inductive Phase
  | learn
  | review
  deriving DecidableEq, Repr

/-- Per-card scheduling state: ReviewCardState in types.ts. -/
structure ReviewCardState where
  phase : Phase
  seenCount : Nat
  dueAt : Int
  interval : Int
  repetition : Nat
  efactor : Rat
  lapses : Nat
  lastReviewedAt : Option Int := none
  deriving DecidableEq, Repr

/-- Card content, ReviewCard in types.ts: a concept flashcard or a
code-reordering exercise. The scheduler treats content opaquely and keys
everything by the id. -/
inductive ReviewCard
  | concept (id unitId front back : String) (tags : List String)
  | codeParsons (id unitId prompt explanation leetcodeUrl difficulty functionName : String)
      (blocks : List (String × String × Nat)) (solutionOrder : List String)
  deriving DecidableEq, Repr

/-- The globally unique id of a card. -/
def ReviewCard.id : ReviewCard → String
  | .concept i _ _ _ _ => i
  | .codeParsons i _ _ _ _ _ _ _ _ => i

/-- A JS object keyed by card id, represented as a key-unique association
list (JS objects cannot hold duplicate keys). -/
def StateMap := List (String × ReviewCardState)

/-- Property lookup on a JS object. -/
def objGet : List (String × ReviewCardState) → String → Option ReviewCardState
  | [], _ => none
  | (k, v) :: rest, key => if k = key then some v else objGet rest key

/-- The JS object update spread: an existing key keeps its position and
gets the new value, a new key is appended. -/
def objSet : List (String × ReviewCardState) → String → ReviewCardState → List (String × ReviewCardState)
  | [], key, v => [(key, v)]
  | (k, w) :: rest, key, v => if k = key then (key, v) :: rest else (k, w) :: objSet rest key v

/-- initialReviewState in the store: the state attached to every card the
moment it is inserted. -/
def initialReviewState : ReviewCardState :=
  { phase := Phase.learn
    seenCount := 0
    dueAt := 0
    interval := 0
    repetition := 0
    efactor := 5/2
    lapses := 0
    lastReviewedAt := none }

/-- qualityFromGrade: the SM-2 numeric quality of a grade. -/
def qualityFromGrade (grade : ReviewGrade) : Int :=
  if grade = ReviewGrade.again then 1
  else if grade = ReviewGrade.hard then 2
  else if grade = ReviewGrade.good then 4
  else 5

/-- JS Math.round for the nonnegative arguments the scheduler feeds it. -/
def jsRound (q : Rat) : Int := ⌊q + 1/2⌋

/-- One day in milliseconds, 24 * 60 * 60 * 1000. -/
def dayMs : Int := 86400000

/-- The per-card grading transition of recordReviewResult, applied to the
previous state of the graded card at current time now. -/
def recordReviewResultState (prev : ReviewCardState) (grade : ReviewGrade) (now : Int) : ReviewCardState :=
  if prev.phase = Phase.learn then
    let seenCount := prev.seenCount + 1
    if seenCount ≥ 10 then
      { prev with
          phase := Phase.review
          seenCount := seenCount
          dueAt := now + dayMs
          interval := 1
          repetition := 1
          lastReviewedAt := some now }
    else
      { prev with
          phase := Phase.learn
          seenCount := seenCount
          dueAt := now
          interval := 0
          repetition := 0
          lastReviewedAt := some now }
  else
    let quality := qualityFromGrade grade
    let irl : Int × Nat × Nat :=
      if quality < 3 then
        (1, 0, prev.lapses + 1)
      else if prev.repetition = 0 then
        (1, prev.repetition + 1, prev.lapses)
      else if prev.repetition = 1 then
        (6, prev.repetition + 1, prev.lapses)
      else
        let bonus : Rat := if quality = 5 then 23/20 else 1
        (max 1 (jsRound ((prev.interval : Rat) * prev.efactor * bonus)), prev.repetition + 1, prev.lapses)
    let ef := prev.efactor + (1/10 - ((5 : Rat) - (quality : Rat)) * (2/25 + ((5 : Rat) - (quality : Rat)) * (1/50)))
    let efactor := if ef < 13/10 then 13/10 else ef
    { prev with
        phase := Phase.review
        interval := irl.1
        repetition := irl.2.1
        efactor := efactor
        lapses := irl.2.2
        dueAt := now + irl.1 * dayMs
        lastReviewedAt := some now }

/-- The slice of the zustand store the scheduler touches: the card list
and the per-id state object. -/
structure StoreState where
  reviewCards : List ReviewCard
  reviewCardState : List (String × ReviewCardState)
  deriving DecidableEq, Repr

/-- recordReviewResult on the store: looks the card state up, falling
back to initialReviewState when the id is absent, and writes the graded
state back under the id. -/
def recordReviewResult (s : StoreState) (cardId : String) (grade : ReviewGrade) (now : Int) : StoreState :=
  let prev := (objGet s.reviewCardState cardId).getD initialReviewState
  { s with reviewCardState := objSet s.reviewCardState cardId (recordReviewResultState prev grade now) }

/-- addGeneratedReviewCards: appends the cards whose ids are not already
in the store and gives each appended id a fresh initial state; cards with
known ids are dropped. (ensureReviewCardsFromUnits applies the same
dedup-and-insert to seeded cards.) -/
def addGeneratedReviewCards (s : StoreState) (cards : List ReviewCard) : StoreState :=
  let byId := s.reviewCards.map ReviewCard.id
  let unique := cards.filter (fun c => decide (c.id ∉ byId))
  if unique.isEmpty then s
  else
    { reviewCards := s.reviewCards ++ unique
      reviewCardState := unique.foldl (fun m c => objSet m c.id initialReviewState) s.reviewCardState }

/-- Folding the grading transition over a sequence of (grade, time)
presentations. -/
def runGrades (start : ReviewCardState) (l : List (ReviewGrade × Int)) : ReviewCardState :=
  l.foldl (fun s p => recordReviewResultState s p.1 p.2) start

/-- The learning pool of getNextCard: cards holding a state in phase
learn with seenCount below 10 (cards with no state are in neither
pool). -/
def learningPool (cards : List ReviewCard) (stateById : List (String × ReviewCardState)) : List ReviewCard :=
  cards.filter fun c =>
    match objGet stateById c.id with
    | some st => decide (st.phase = Phase.learn) && decide (st.seenCount < 10)
    | none => false

/-- The due pool of getNextCard: cards holding a state in phase review
whose dueAt has passed now. -/
def duePool (cards : List ReviewCard) (stateById : List (String × ReviewCardState)) (now : Int) : List ReviewCard :=
  cards.filter fun c =>
    match objGet stateById c.id with
    | some st => decide (st.phase = Phase.review) && decide (st.dueAt ≤ now)
    | none => false

/-- The seenCount the selection code reads for a card: the optional
chain stateById of c.id, seenCount, defaulting to 0. -/
def seenOf (stateById : List (String × ReviewCardState)) (c : ReviewCard) : Nat :=
  ((objGet stateById c.id).map ReviewCardState.seenCount).getD 0

/-- Math.min over a spread of a nonempty list ([] never reaches it in the
source; 0 stands for its +Infinity result there). -/
def mathMin : List Nat → Nat
  | [] => 0
  | x :: xs => xs.foldl min x

/-- The selection weight weightedRandomByOverdue computes for one card.
The source reads the due date as st?.dueAt || now, so a missing state or
a dueAt of exactly 0 (falsy) is replaced by now, giving 0 overdue days. -/
def weightOf (stateById : List (String × ReviewCardState)) (now : Int) (c : ReviewCard) : Rat :=
  let st := objGet stateById c.id
  let dueRaw : Int :=
    match st with
    | some s => if s.dueAt = 0 then now else s.dueAt
    | none => now
  let overdueDays : Rat := max 0 (((now : Rat) - (dueRaw : Rat)) / 86400000)
  let lapses : Nat :=
    match st with
    | some s => s.lapses
    | none => 0
  1 + overdueDays + (lapses : Rat) * (1/2)

/-- The weight the spec ascribes to a candidate, written from the spec
sentence for comparison with weightOf: 1 + overdueDays + lapses * 0.5
with overdueDays = max(0, (now - dueAt) / 86400000). -/
def specWeight (st : ReviewCardState) (now : Int) : Rat :=
  1 + max 0 (((now : Rat) - (st.dueAt : Rat)) / 86400000) + (st.lapses : Rat) * (1/2)

/-- The subtracting loop of weightedRandomByOverdue: rand -= weight,
return the card once rand ≤ 0; none models falling off the loop. -/
def pickLoop : List (ReviewCard × Rat) → Rat → Option ReviewCard
  | [], _ => none
  | (c, w) :: rest, rand => if rand - w ≤ 0 then some c else pickLoop rest (rand - w)

/-- weightedRandomByOverdue with the uniform draw r (Math.random())
injected: draws rand = r * totalWeight and walks the cumulative sum,
falling back to the first card; none only on an empty candidate list
(where the source would crash reading weighted[0]). -/
def weightedRandomByOverdue (cards : List ReviewCard) (stateById : List (String × ReviewCardState)) (now : Int) (r : Rat) : Option ReviewCard :=
  let weighted := cards.map fun c => (c, weightOf stateById now c)
  let total := (weighted.map Prod.snd).sum
  match pickLoop weighted (r * total) with
  | some c => some c
  | none => weighted.head?.map Prod.fst

/-- getNextCard with the two uniform draws injected: r1 indexes the
minimum-seenCount bucket of the learning pool, r2 drives the
overdue-weighted draw over the due pool. -/
def getNextCard (cards : List ReviewCard) (stateById : List (String × ReviewCardState)) (now : Int) (r1 r2 : Rat) : Option ReviewCard :=
  let lp := learningPool cards stateById
  if lp.isEmpty then
    let dp := duePool cards stateById now
    if dp.isEmpty then none
    else weightedRandomByOverdue dp stateById now r2
  else
    let minSeen := mathMin (lp.map (seenOf stateById))
    let bucket := lp.filter fun c => decide (seenOf stateById c = minSeen)
    bucket[(⌊r1 * (bucket.length : Rat)⌋).toNat]?

/-- Card-content lookup: the first stored card carrying the id. -/
def getCard (s : StoreState) (key : String) : Option ReviewCard :=
  s.reviewCards.find? fun e => decide (e.id = key)

/-- The reachable-state invariant of the grading transition: the ease
factor sits at or above the 1.3 floor, and a card in review phase has an
interval of at least one day. -/
def SchedInv (s : ReviewCardState) : Prop :=
  13/10 ≤ s.efactor ∧ (s.phase = Phase.review → 1 ≤ s.interval)

/-- Concrete concept card with id a, for concrete evaluations. -/
def cardA : ReviewCard := ReviewCard.concept "a" "u" "fa" "ba" []

/-- Concrete concept card with id b. -/
def cardB : ReviewCard := ReviewCard.concept "b" "u" "fb" "bb" []

/-- Concrete concept card with id c. -/
def cardC : ReviewCard := ReviewCard.concept "c" "u" "fc" "bc" []

/-- A card sharing id a with cardA but carrying different content. -/
def cardA2 : ReviewCard := ReviewCard.concept "a" "u" "changed" "changed" []

/-- A learning-phase state seen k times. -/
def learnState (k : Nat) : ReviewCardState :=
  { initialReviewState with seenCount := k }

/-- A review-phase state with the given due date and lapse count. -/
def reviewState (due : Int) (lap : Nat) : ReviewCardState :=
  { phase := Phase.review
    seenCount := 10
    dueAt := due
    interval := 1
    repetition := 1
    efactor := 5/2
    lapses := lap
    lastReviewedAt := none }

/-- The review state of the spec scenario: interval 6, repetition 2,
ease 2.5. -/
def matureReviewState : ReviewCardState :=
  { phase := Phase.review
    seenCount := 10
    dueAt := 0
    interval := 6
    repetition := 2
    efactor := 5/2
    lapses := 0
    lastReviewedAt := none }

/-! ## Helper lemmas -/

theorem objGet_objSet_self (m : List (String × ReviewCardState)) (k : String) (v : ReviewCardState) :
    objGet (objSet m k v) k = some v := by
  induction m with
  | nil => simp [objSet, objGet]
  | cons p rest ih =>
    by_cases h : p.1 = k
    · simp [objSet, h, objGet]
    · simp [objSet, h, objGet, ih]

theorem objGet_objSet_ne (m : List (String × ReviewCardState)) (k key : String) (v : ReviewCardState)
    (h : k ≠ key) : objGet (objSet m k v) key = objGet m key := by
  induction m with
  | nil => simp [objSet, objGet, h]
  | cons p rest ih =>
    by_cases hp : p.1 = k
    · simp [objSet, hp, objGet, h]
    · simp [objSet, hp, objGet, ih]

theorem objGet_insertAll_not_mem (l : List ReviewCard) (m : List (String × ReviewCardState))
    (key : String) (v : ReviewCardState) (h : key ∉ l.map ReviewCard.id) :
    objGet (l.foldl (fun acc c => objSet acc c.id v) m) key = objGet m key := by
  induction l generalizing m with
  | nil => rfl
  | cons c rest ih =>
    simp only [List.map_cons, List.mem_cons] at h
    push_neg at h
    simp only [List.foldl_cons]
    rw [ih _ h.2, objGet_objSet_ne _ _ _ _ (fun he => h.1 he.symm)]

theorem objGet_insertAll_mem (l : List ReviewCard) (m : List (String × ReviewCardState))
    (key : String) (v : ReviewCardState) (h : key ∈ l.map ReviewCard.id) :
    objGet (l.foldl (fun acc c => objSet acc c.id v) m) key = some v := by
  induction l generalizing m with
  | nil => simp at h
  | cons c rest ih =>
    simp only [List.foldl_cons]
    by_cases hr : key ∈ rest.map ReviewCard.id
    · exact ih _ hr
    · have hc : c.id = key := by
        simp only [List.map_cons, List.mem_cons] at h
        tauto
      rw [objGet_insertAll_not_mem _ _ _ _ hr, hc, objGet_objSet_self]

theorem step_schedInv (s : ReviewCardState) (g : ReviewGrade) (now : Int) (h : SchedInv s) :
    SchedInv (recordReviewResultState s g now) := by
  obtain ⟨hef, hint⟩ := h
  unfold recordReviewResultState
  by_cases hp : s.phase = Phase.learn
  · simp only [hp, if_true]
    by_cases hs : s.seenCount + 1 ≥ 10
    · simp [hs, SchedInv, hef]
    · simp [hs, SchedInv, hef]
  · simp only [hp, if_false]
    constructor
    · simp only
      split
      · linarith
      · linarith [not_lt.1 (by assumption : ¬ _ < (13/10 : Rat))]
    · intro _
      simp only
      split
      · simp
      · split
        · simp
        · split
          · norm_num
          · exact le_max_left 1 _

theorem runGrades_schedInv (l : List (ReviewGrade × Int)) (s : ReviewCardState) (h : SchedInv s) :
    SchedInv (runGrades s l) := by
  induction l generalizing s with
  | nil => exact h
  | cons p rest ih => exact ih _ (step_schedInv s p.1 p.2 h)

theorem initial_schedInv : SchedInv initialReviewState := by
  constructor
  · norm_num [initialReviewState]
  · intro h
    simp [initialReviewState] at h

/-! ## Claims -/

/-- C8: for any sequence of grades applied from the freshly created
state (ease 2.5), the resulting ease factor never drops below 1.3. -/
theorem ease_floor (l : List (ReviewGrade × Int)) :
    13/10 ≤ (runGrades initialReviewState l).efactor :=
  (runGrades_schedInv l initialReviewState initial_schedInv).1

/-- C10: while a card is in learning phase the grading transition never
reads the grade: any two grades applied at the same time produce
identical states. -/
theorem learning_ignores_grade (s : StoreState) (cardId : String) (st : ReviewCardState)
    (g1 g2 : ReviewGrade) (now : Int)
    (hlook : objGet s.reviewCardState cardId = some st) (hph : st.phase = Phase.learn) :
    recordReviewResult s cardId g1 now = recordReviewResult s cardId g2 now := by
  unfold recordReviewResult
  rw [hlook]
  simp only [Option.getD_some]
  unfold recordReviewResultState
  rw [hph]
  simp

/-- Witness for C10 at a concrete learning store: grading Again and
grading Easy coincide. -/
theorem learning_ignores_grade_witness :
    recordReviewResult ⟨[cardA], [("a", learnState 3)]⟩ "a" ReviewGrade.again 5 =
      recordReviewResult ⟨[cardA], [("a", learnState 3)]⟩ "a" ReviewGrade.easy 5 :=
  learning_ignores_grade ⟨[cardA], [("a", learnState 3)]⟩ "a" (learnState 3)
    ReviewGrade.again ReviewGrade.easy 5 rfl rfl

theorem step_learn_small (s : ReviewCardState) (g : ReviewGrade) (now : Int)
    (hp : s.phase = Phase.learn) (hs : ¬ 10 ≤ s.seenCount + 1) :
    recordReviewResultState s g now =
      { s with
          phase := Phase.learn
          seenCount := s.seenCount + 1
          dueAt := now
          interval := 0
          repetition := 0
          lastReviewedAt := some now } := by
  unfold recordReviewResultState
  simp [hp, hs]

theorem step_learn_graduate (s : ReviewCardState) (g : ReviewGrade) (now : Int)
    (hp : s.phase = Phase.learn) (hs : 10 ≤ s.seenCount + 1) :
    recordReviewResultState s g now =
      { s with
          phase := Phase.review
          seenCount := s.seenCount + 1
          dueAt := now + 86400000
          interval := 1
          repetition := 1
          lastReviewedAt := some now } := by
  unfold recordReviewResultState
  simp [hp, hs, dayMs]

theorem runGrades_learn_char (l : List (ReviewGrade × Int)) (h : l.length ≤ 9) :
    runGrades initialReviewState l =
      { phase := Phase.learn
        seenCount := l.length
        dueAt := ((l.map Prod.snd).getLast?).getD 0
        interval := 0
        repetition := 0
        efactor := 5/2
        lapses := 0
        lastReviewedAt := (l.map Prod.snd).getLast? } := by
  induction l using List.reverseRecOn with
  | nil => rfl
  | append_singleton l p ih =>
    have hlen : l.length + 1 ≤ 9 := by
      simpa using h
    unfold runGrades
    rw [List.foldl_append]
    have ihv := ih (by omega)
    unfold runGrades at ihv
    rw [ihv]
    simp only [List.foldl_cons, List.foldl_nil]
    rw [step_learn_small _ p.1 p.2 rfl (by simp only; omega)]
    simp [List.getLast?_concat]

/-- C1: from the fresh learning state, after exactly 10 grades of any
kind the card graduates with phase review, interval 1, repetition 1 and
dueAt one day (86400000 ms) after the time of the 10th grade; after any
shorter nonempty sequence the card is still learning with dueAt equal to
the time of its last grade. -/
theorem graduation_after_ten (l : List (ReviewGrade × Int)) (p : ReviewGrade × Int) :
    (l.length = 9 →
      (runGrades initialReviewState (l ++ [p])).phase = Phase.review ∧
      (runGrades initialReviewState (l ++ [p])).interval = 1 ∧
      (runGrades initialReviewState (l ++ [p])).repetition = 1 ∧
      (runGrades initialReviewState (l ++ [p])).dueAt = p.2 + 86400000) ∧
    (l.length < 9 →
      (runGrades initialReviewState (l ++ [p])).phase = Phase.learn ∧
      (runGrades initialReviewState (l ++ [p])).seenCount = l.length + 1 ∧
      (runGrades initialReviewState (l ++ [p])).dueAt = p.2) := by
  constructor
  · intro h9
    have hchar := runGrades_learn_char l (by omega)
    unfold runGrades
    rw [List.foldl_append]
    unfold runGrades at hchar
    rw [hchar]
    simp only [List.foldl_cons, List.foldl_nil]
    rw [step_learn_graduate _ p.1 p.2 rfl (by simp only; omega)]
    simp
  · intro hlt
    have hlen : (l ++ [p]).length ≤ 9 := by
      simp only [List.length_append, List.length_cons, List.length_nil]
      omega
    have hchar := runGrades_learn_char (l ++ [p]) hlen
    unfold runGrades at hchar ⊢
    rw [hchar]
    simp [List.getLast?_concat]

/-- Witness for C1: ten Good grades, the last at time 7, graduate the
card to review due at 7 + 86400000; nine of them leave it learning and
due at 7. -/
theorem graduation_after_ten_witness :
    ((List.replicate 9 (ReviewGrade.good, (3 : Int))).length = 9 ∧
      (runGrades initialReviewState (List.replicate 9 (ReviewGrade.good, (3 : Int)) ++ [(ReviewGrade.good, 7)])).phase = Phase.review ∧
      (runGrades initialReviewState (List.replicate 9 (ReviewGrade.good, (3 : Int)) ++ [(ReviewGrade.good, 7)])).dueAt = 7 + 86400000) ∧
    ((List.replicate 8 (ReviewGrade.good, (3 : Int))).length < 9 ∧
      (runGrades initialReviewState (List.replicate 8 (ReviewGrade.good, (3 : Int)) ++ [(ReviewGrade.good, 7)])).phase = Phase.learn ∧
      (runGrades initialReviewState (List.replicate 8 (ReviewGrade.good, (3 : Int)) ++ [(ReviewGrade.good, 7)])).dueAt = 7) := by
  have h9 := (graduation_after_ten (List.replicate 9 (ReviewGrade.good, (3 : Int))) (ReviewGrade.good, 7)).1 (by simp)
  have h8 := (graduation_after_ten (List.replicate 8 (ReviewGrade.good, (3 : Int))) (ReviewGrade.good, 7)).2 (by simp)
  exact ⟨⟨by simp, h9.1, h9.2.2.2⟩, ⟨by simp, h8.1, h8.2.2⟩⟩

/-- C2 counterexample: grading an id with no stored CardState does not
fail: on the empty store, grading id c at time 7 inserts a fresh graded
state, so the operation proceeds and the store is changed. -/
theorem grade_missing_id_counterexample :
    objGet (⟨[], []⟩ : StoreState).reviewCardState "c" = none ∧
    objGet (recordReviewResult ⟨[], []⟩ "c" ReviewGrade.good 7).reviewCardState "c" =
      some
        { phase := Phase.learn
          seenCount := 1
          dueAt := 7
          interval := 0
          repetition := 0
          efactor := 5/2
          lapses := 0
          lastReviewedAt := some 7 } :=
  ⟨rfl, rfl⟩

/-- C2 amended: grading a card id that has no CardState in the store
does not throw; the code substitutes the fresh initial state for the
missing one, grades it, and stores the result under the id. -/
theorem grade_missing_id (s : StoreState) (cardId : String) (g : ReviewGrade) (now : Int)
    (h : objGet s.reviewCardState cardId = none) :
    objGet (recordReviewResult s cardId g now).reviewCardState cardId =
      some (recordReviewResultState initialReviewState g now) := by
  unfold recordReviewResult
  rw [h]
  simp only [Option.getD_none]
  exact objGet_objSet_self _ _ _

/-- Witness for the amended C2 on the empty store. -/
theorem grade_missing_id_witness :
    objGet ((⟨[], []⟩ : StoreState)).reviewCardState "c" = none ∧
    objGet (recordReviewResult ⟨[], []⟩ "c" ReviewGrade.again 4).reviewCardState "c" =
      some (recordReviewResultState initialReviewState ReviewGrade.again 4) :=
  ⟨rfl, grade_missing_id ⟨[], []⟩ "c" ReviewGrade.again 4 rfl⟩

/-- C3 counterexample: a freshly inserted card's state has dueAt 0, not
the creation time: adding cardA at a nonzero wall-clock time (say
86400000) still yields dueAt = 0. -/
theorem fresh_state_due_zero_counterexample :
    objGet (addGeneratedReviewCards ⟨[], []⟩ [cardA]).reviewCardState "a" = some initialReviewState ∧
    initialReviewState.dueAt = 0 ∧ (86400000 : Int) ≠ 0 := by
  refine ⟨rfl, rfl, by decide⟩

/-- C3 amended: every card id newly inserted by addGeneratedReviewCards
receives exactly the initial state phase = Learning, seenCount = 0,
dueAt = 0 (not now), interval = 0, repetition = 0, ease = 2.5,
lapses = 0. -/
theorem fresh_state_initial (s : StoreState) (cards : List ReviewCard) (c : ReviewCard)
    (hc : c ∈ cards) (hnew : c.id ∉ s.reviewCards.map ReviewCard.id) :
    objGet (addGeneratedReviewCards s cards).reviewCardState c.id = some initialReviewState ∧
    initialReviewState =
      { phase := Phase.learn
        seenCount := 0
        dueAt := 0
        interval := 0
        repetition := 0
        efactor := 5/2
        lapses := 0
        lastReviewedAt := none } := by
  have hcu : c ∈ cards.filter (fun x => decide (x.id ∉ s.reviewCards.map ReviewCard.id)) :=
    List.mem_filter.2 ⟨hc, by simpa using hnew⟩
  refine ⟨?_, rfl⟩
  simp only [addGeneratedReviewCards]
  rw [if_neg (by simpa [List.isEmpty_iff] using List.ne_nil_of_mem hcu)]
  exact objGet_insertAll_mem _ _ _ _ (List.mem_map.2 ⟨c, hcu, rfl⟩)

/-- Witness for the amended C3: inserting cardA into the empty store. -/
theorem fresh_state_initial_witness :
    objGet (addGeneratedReviewCards ⟨[], []⟩ [cardA]).reviewCardState cardA.id = some initialReviewState := by
  exact (fresh_state_initial ⟨[], []⟩ [cardA] cardA (by simp) (by simp)).1

/-- C4 counterexample: the claim puts Hard among the quality ≥ 3 grades,
but qualityFromGrade maps hard to 2, so a Hard grade on the scenario
review card (interval 6, repetition 2, ease 2.5) takes the lapse branch:
repetition resets to 0 (the claim demands 3) and interval becomes 1 (the
claim demands round(6 * 2.5) = 15). -/
theorem hard_is_lapse_counterexample :
    qualityFromGrade ReviewGrade.hard = 2 ∧
    (recordReviewResultState matureReviewState ReviewGrade.hard 7).repetition = 0 ∧
    (recordReviewResultState matureReviewState ReviewGrade.hard 7).interval = 1 ∧
    (recordReviewResultState matureReviewState ReviewGrade.hard 7).lapses = 1 ∧
    matureReviewState.repetition + 1 = 3 ∧
    jsRound ((matureReviewState.interval : Rat) * matureReviewState.efactor * 1) = 15 := by
  refine ⟨rfl, rfl, rfl, rfl, rfl, ?_⟩
  norm_num [matureReviewState, jsRound]

/-- C4 amended: for a review-phase card graded Good or Easy (the grades
of quality ≥ 3; Hard maps to quality 2 and lapses instead): repetition
increments, and the new interval is 1 if repetition was 0, 6 if it was
1, and otherwise round(interval * ease * bonus) with bonus 1.15 exactly
for Easy. The interval and ease-floor hypotheses hold in every state
reachable from the fresh state (runGrades_schedInv). -/
theorem review_success_update (st : ReviewCardState) (g : ReviewGrade) (now : Int)
    (hph : st.phase = Phase.review)
    (hg : g = ReviewGrade.good ∨ g = ReviewGrade.easy)
    (hint : 1 ≤ st.interval) (hef : 13/10 ≤ st.efactor) :
    (recordReviewResultState st g now).repetition = st.repetition + 1 ∧
    (recordReviewResultState st g now).interval =
      (if st.repetition = 0 then 1
       else if st.repetition = 1 then 6
       else jsRound ((st.interval : Rat) * st.efactor * (if g = ReviewGrade.easy then 23/20 else 1))) := by
  have h1q : (1 : Rat) ≤ (st.interval : Rat) := by exact_mod_cast hint
  have hpl : ¬ st.phase = Phase.learn := by
    rw [hph]
    intro hcon
    exact Phase.noConfusion hcon
  have hround : ∀ b : Rat, 1 ≤ b → 1 ≤ jsRound ((st.interval : Rat) * st.efactor * b) := by
    intro b hb
    have he0 : (0 : Rat) ≤ st.efactor := by linarith
    have hie : (13/10 : Rat) ≤ (st.interval : Rat) * st.efactor :=
      le_trans hef (le_mul_of_one_le_left he0 h1q)
    have hieb : (13/10 : Rat) ≤ (st.interval : Rat) * st.efactor * b :=
      le_trans hie (le_mul_of_one_le_right (by linarith) hb)
    rw [jsRound, Int.le_floor]
    push_cast
    linarith
  unfold recordReviewResultState
  rw [if_neg hpl]
  rcases hg with h | h <;> subst h
  · rw [show qualityFromGrade ReviewGrade.good = 4 from rfl]
    simp +decide only [show ¬ (4 : Int) < 3 from by norm_num, if_false,
      show ((4 : Int) = 5) = False from by norm_num, mul_one]
    by_cases h0 : st.repetition = 0
    · simp [h0]
    · by_cases h1 : st.repetition = 1
      · simp [h0, h1]
      · simp only [h0, h1, if_false]
        have hr := hround 1 le_rfl
        rw [mul_one] at hr
        exact ⟨trivial, max_eq_right hr⟩
  · rw [show qualityFromGrade ReviewGrade.easy = 5 from rfl]
    simp +decide only [show ¬ (5 : Int) < 3 from by norm_num, if_false,
      show ((5 : Int) = 5) = True from by norm_num, if_true]
    by_cases h0 : st.repetition = 0
    · simp [h0]
    · by_cases h1 : st.repetition = 1
      · simp [h0, h1]
      · simp only [h0, h1, if_false]
        have hr := hround (23/20) (by norm_num)
        exact ⟨trivial, max_eq_right hr⟩

/-- Witness for the amended C4: the spec scenario, interval 6,
repetition 2, ease 2.5, graded Good, yields interval 15 and repetition
3. -/
theorem review_success_update_witness :
    (recordReviewResultState matureReviewState ReviewGrade.good 7).repetition = 3 ∧
    (recordReviewResultState matureReviewState ReviewGrade.good 7).interval = 15 := by
  have h := review_success_update matureReviewState ReviewGrade.good 7 rfl (Or.inl rfl)
    (by norm_num [matureReviewState]) (by norm_num [matureReviewState])
  refine ⟨h.1, ?_⟩
  rw [h.2]
  simp +decide only [matureReviewState]
  norm_num [jsRound]

theorem addGen_mem_ids (s : StoreState) (cards : List ReviewCard) (c : ReviewCard) (hc : c ∈ cards) :
    c.id ∈ (addGeneratedReviewCards s cards).reviewCards.map ReviewCard.id := by
  simp only [addGeneratedReviewCards]
  by_cases h : c.id ∈ s.reviewCards.map ReviewCard.id
  · split
    · exact h
    · simp only [List.map_append, List.mem_append]
      exact Or.inl h
  · have hcu : c ∈ cards.filter (fun x => decide (x.id ∉ s.reviewCards.map ReviewCard.id)) :=
      List.mem_filter.2 ⟨hc, by simpa using h⟩
    rw [if_neg (by simpa [List.isEmpty_iff] using List.ne_nil_of_mem hcu)]
    simp only [List.map_append, List.mem_append]
    exact Or.inr (List.mem_map.2 ⟨c, hcu, rfl⟩)

theorem addGen_of_all_mem (s : StoreState) (cards : List ReviewCard)
    (h : ∀ c ∈ cards, c.id ∈ s.reviewCards.map ReviewCard.id) :
    addGeneratedReviewCards s cards = s := by
  simp only [addGeneratedReviewCards]
  have hnil : cards.filter (fun x => decide (x.id ∉ s.reviewCards.map ReviewCard.id)) = [] := by
    rw [List.filter_eq_nil_iff]
    intro a ha
    simp [h a ha]
  rw [hnil]
  rfl

/-- C9: the dedup-and-insert upsert is idempotent and preserves existing
entries: a second identical call is a no-op, and for any id already in
the store both the stored card content and its CardState are exactly
what they were before the call. -/
theorem upsert_idempotent (s : StoreState) (cards : List ReviewCard) (key : String)
    (h : key ∈ s.reviewCards.map ReviewCard.id) :
    addGeneratedReviewCards (addGeneratedReviewCards s cards) cards = addGeneratedReviewCards s cards ∧
    getCard (addGeneratedReviewCards s cards) key = getCard s key ∧
    objGet (addGeneratedReviewCards s cards).reviewCardState key = objGet s.reviewCardState key := by
  refine ⟨addGen_of_all_mem _ _ (fun c hc => addGen_mem_ids s cards c hc), ?_, ?_⟩
  · simp only [getCard, addGeneratedReviewCards]
    split
    · rfl
    · simp only
      obtain ⟨e, he, hid⟩ := List.mem_map.1 h
      have hsome : (s.reviewCards.find? fun x => decide (x.id = key)).isSome := by
        rw [List.find?_isSome]
        exact ⟨e, he, by simp [hid]⟩
      obtain ⟨v, hv⟩ := Option.isSome_iff_exists.1 hsome
      rw [List.find?_append, hv]
      rfl
  · simp only [addGeneratedReviewCards]
    split
    · rfl
    · simp only
      apply objGet_insertAll_not_mem
      intro hmem
      obtain ⟨u, hu, huid⟩ := List.mem_map.1 hmem
      have := (List.mem_filter.1 hu).2
      rw [huid] at this
      simp [h] at this

/-- Witness for C9: re-adding a card with the already stored id a (even
with changed content) leaves the store fixed, and the stored content and
state of id a stay exactly as they were. -/
theorem upsert_idempotent_witness :
    addGeneratedReviewCards (addGeneratedReviewCards ⟨[cardA], [("a", learnState 3)]⟩ [cardA2, cardB]) [cardA2, cardB] =
      addGeneratedReviewCards ⟨[cardA], [("a", learnState 3)]⟩ [cardA2, cardB] ∧
    getCard (addGeneratedReviewCards ⟨[cardA], [("a", learnState 3)]⟩ [cardA2, cardB]) "a" =
      getCard ⟨[cardA], [("a", learnState 3)]⟩ "a" ∧
    objGet (addGeneratedReviewCards ⟨[cardA], [("a", learnState 3)]⟩ [cardA2, cardB]).reviewCardState "a" =
      objGet [("a", learnState 3)] "a" :=
  upsert_idempotent ⟨[cardA], [("a", learnState 3)]⟩ [cardA2, cardB] "a" (by simp [cardA, ReviewCard.id])

theorem foldl_min_le_init (xs : List Nat) (x : Nat) : xs.foldl min x ≤ x := by
  induction xs generalizing x with
  | nil => exact le_refl x
  | cons y ys ih => exact le_trans (ih (min x y)) (min_le_left x y)

theorem foldl_min_mem_or (xs : List Nat) (x : Nat) : xs.foldl min x = x ∨ xs.foldl min x ∈ xs := by
  induction xs generalizing x with
  | nil => exact Or.inl rfl
  | cons y ys ih =>
    rcases ih (min x y) with h | h
    · rcases min_choice x y with hm | hm
      · exact Or.inl (by rw [List.foldl_cons, h, hm])
      · exact Or.inr (by rw [List.foldl_cons, h, hm]; exact List.mem_cons_self y ys)
    · exact Or.inr (List.mem_cons_of_mem y h)

theorem foldl_min_le_mem (xs : List Nat) (x y : Nat) (h : y ∈ xs) : xs.foldl min x ≤ y := by
  induction xs generalizing x with
  | nil => simp at h
  | cons z zs ih =>
    rcases List.mem_cons.1 h with rfl | h2
    · exact le_trans (foldl_min_le_init zs (min x y)) (min_le_right x y)
    · exact ih (min x z) h2

theorem mathMin_mem (l : List Nat) (h : l ≠ []) : mathMin l ∈ l := by
  cases l with
  | nil => exact absurd rfl h
  | cons x xs =>
    rcases foldl_min_mem_or xs x with h1 | h1
    · exact List.mem_cons.2 (Or.inl (by rw [mathMin, h1]))
    · exact List.mem_cons_of_mem x (by rw [mathMin]; exact h1)

theorem mathMin_le (l : List Nat) (y : Nat) (h : y ∈ l) : mathMin l ≤ y := by
  cases l with
  | nil => simp at h
  | cons x xs =>
    rcases List.mem_cons.1 h with rfl | h2
    · exact foldl_min_le_init xs y
    · exact foldl_min_le_mem xs x y h2

theorem pickLoop_mem (items : List (ReviewCard × Rat)) (rand : Rat) (c : ReviewCard)
    (h : pickLoop items rand = some c) : c ∈ items.map Prod.fst := by
  induction items generalizing rand with
  | nil => simp [pickLoop] at h
  | cons p rest ih =>
    obtain ⟨pc, pw⟩ := p
    rw [pickLoop] at h
    by_cases hr : rand - pw ≤ 0
    · rw [if_pos hr] at h
      cases h
      exact List.mem_cons_self _ _
    · rw [if_neg hr] at h
      exact List.mem_cons_of_mem _ (ih _ h)

theorem pickLoop_select (items : List (ReviewCard × Rat)) (hpos : ∀ p ∈ items, 0 < p.2) :
    ∀ i (hi : i < items.length),
      ∃ rand, 0 < rand ∧ rand < (items.map Prod.snd).sum ∧
        pickLoop items rand = some (items.get ⟨i, hi⟩).1 := by
  induction items with
  | nil => intro i hi; simp at hi
  | cons p rest ih =>
    intro i hi
    obtain ⟨pc, pw⟩ := p
    have hpw : 0 < pw := hpos (pc, pw) (List.mem_cons_self _ _)
    have hrest : ∀ q ∈ rest, 0 < q.2 := fun q hq => hpos q (List.mem_cons_of_mem _ hq)
    have hsum : 0 ≤ (rest.map Prod.snd).sum := by
      apply List.sum_nonneg
      intro a ha
      obtain ⟨q, hq, rfl⟩ := List.mem_map.1 ha
      exact le_of_lt (hrest q hq)
    cases i with
    | zero =>
      refine ⟨pw / 2, by linarith, ?_, ?_⟩
      · simp only [List.map_cons, List.sum_cons]
        linarith
      · rw [pickLoop, if_pos (by linarith)]
        rfl
    | succ j =>
      have hj : j < rest.length := by simpa using hi
      obtain ⟨rand, hr0, hrs, hpk⟩ := ih hrest j hj
      refine ⟨pw + rand, by linarith, ?_, ?_⟩
      · simp only [List.map_cons, List.sum_cons]
        linarith
      · rw [pickLoop, if_neg (by linarith)]
        rw [show pw + rand - pw = rand from by ring]
        exact hpk

theorem one_le_weightOf (m : List (String × ReviewCardState)) (now : Int) (c : ReviewCard) :
    1 ≤ weightOf m now c := by
  simp only [weightOf]
  have key : ∀ A B : Rat, 0 ≤ B → (1 : Rat) ≤ 1 + max 0 A + B := by
    intro A B hB
    have hA : (0 : Rat) ≤ max 0 A := le_max_left 0 A
    linarith
  apply key
  exact mul_nonneg (Nat.cast_nonneg _) (by norm_num)

theorem wrbo_mem (cards : List ReviewCard) (m : List (String × ReviewCardState)) (now : Int)
    (r : Rat) (c : ReviewCard) (h : weightedRandomByOverdue cards m now r = some c) :
    c ∈ cards := by
  simp only [weightedRandomByOverdue] at h
  rcases hp : pickLoop (cards.map fun c => (c, weightOf m now c))
      (r * ((cards.map fun c => (c, weightOf m now c)).map Prod.snd).sum) with _ | c2
  · rw [hp] at h
    simp only at h
    cases cards with
    | nil => simp at h
    | cons c0 rest =>
      simp only [List.map_cons, List.head?_cons, Option.map_some] at h
      cases h
      exact List.mem_cons_self _ _
  · rw [hp] at h
    simp only [Option.some.injEq] at h
    subst h
    have := pickLoop_mem _ _ _ hp
    simpa [List.map_map, Function.comp] using this

theorem wrbo_isSome (cards : List ReviewCard) (m : List (String × ReviewCardState)) (now : Int)
    (r : Rat) (h : cards ≠ []) : (weightedRandomByOverdue cards m now r).isSome := by
  simp only [weightedRandomByOverdue]
  rcases hp : pickLoop (cards.map fun c => (c, weightOf m now c))
      (r * ((cards.map fun c => (c, weightOf m now c)).map Prod.snd).sum) with _ | c2
  · cases cards with
    | nil => exact absurd rfl h
    | cons c0 rest => simp
  · simp

theorem wrbo_select (cards : List ReviewCard) (m : List (String × ReviewCardState)) (now : Int)
    (i : Nat) (hi : i < cards.length) :
    ∃ r, 0 ≤ r ∧ r < 1 ∧ weightedRandomByOverdue cards m now r = some (cards.get ⟨i, hi⟩) := by
  have hpos : ∀ p ∈ (cards.map fun c => (c, weightOf m now c)), 0 < p.2 := by
    intro p hp
    obtain ⟨c, hc, rfl⟩ := List.mem_map.1 hp
    exact lt_of_lt_of_le zero_lt_one (one_le_weightOf m now c)
  have hlen : i < (cards.map fun c => (c, weightOf m now c)).length := by simpa using hi
  obtain ⟨rand, hr0, hrs, hpk⟩ := pickLoop_select _ hpos i hlen
  have htot : (0 : Rat) < (((cards.map fun c => (c, weightOf m now c)).map Prod.snd)).sum :=
    lt_trans hr0 hrs
  refine ⟨rand / _, le_of_lt (div_pos hr0 htot), (div_lt_one htot).2 hrs, ?_⟩
  simp only [weightedRandomByOverdue]
  rw [div_mul_cancel₀ _ (ne_of_gt htot), hpk]
  rw [List.get_eq_getElem, List.get_eq_getElem, List.getElem_map]

theorem pick_uniform (l : List ReviewCard) (r : Rat) (h0 : 0 ≤ r) (h1 : r < 1) (hne : l ≠ []) :
    ∃ c, l[(⌊r * (l.length : Rat)⌋).toNat]? = some c ∧ c ∈ l := by
  have hl : 0 < l.length := List.length_pos.2 hne
  have hcast : (0 : Rat) < (l.length : Rat) := by exact_mod_cast hl
  have hfl0 : 0 ≤ ⌊r * (l.length : Rat)⌋ := Int.floor_nonneg.2 (mul_nonneg h0 (le_of_lt hcast))
  have hflt : ⌊r * (l.length : Rat)⌋ < (l.length : Int) := by
    rw [Int.floor_lt]
    push_cast
    nlinarith
  have hidx : (⌊r * (l.length : Rat)⌋).toNat < l.length := by omega
  refine ⟨l.get ⟨_, hidx⟩, ?_, ?_⟩
  · rw [List.get_eq_getElem]
    exact List.getElem?_eq_getElem hidx
  · rw [List.get_eq_getElem]
    exact List.getElem_mem hidx

theorem getNextCard_learning_branch (cards : List ReviewCard) (m : List (String × ReviewCardState))
    (now : Int) (r1 r2 : Rat) (h0 : 0 ≤ r1) (h1 : r1 < 1) (hne : learningPool cards m ≠ []) :
    ∃ c, getNextCard cards m now r1 r2 = some c ∧ c ∈ learningPool cards m ∧
      ∀ d ∈ learningPool cards m, seenOf m c ≤ seenOf m d := by
  have hlpE : ¬ ((learningPool cards m).isEmpty = true) := by
    simpa [List.isEmpty_iff] using hne
  have hmm : mathMin ((learningPool cards m).map (seenOf m)) ∈ (learningPool cards m).map (seenOf m) :=
    mathMin_mem _ (by simpa using hne)
  obtain ⟨c0, hc0, hs0⟩ := List.mem_map.1 hmm
  have hb0 : c0 ∈ (learningPool cards m).filter
      (fun c => decide (seenOf m c = mathMin ((learningPool cards m).map (seenOf m)))) :=
    List.mem_filter.2 ⟨hc0, by simp [hs0]⟩
  obtain ⟨c, hc, hcb⟩ := pick_uniform _ r1 h0 h1 (List.ne_nil_of_mem hb0)
  refine ⟨c, ?_, ?_, ?_⟩
  · simp only [getNextCard]
    rw [if_neg hlpE]
    exact hc
  · exact (List.mem_filter.1 hcb).1
  · intro d hd
    have hceq : seenOf m c = mathMin ((learningPool cards m).map (seenOf m)) := by
      have := (List.mem_filter.1 hcb).2
      simpa using this
    rw [hceq]
    exact mathMin_le _ _ (List.mem_map_of_mem (seenOf m) hd)

/-- C6: whenever the learning pool is non-empty, getNextCard returns a
card of that pool whose seenCount is the pool minimum, for every value
of the injected uniform draw in [0, 1). -/
theorem fair_learning_selection (cards : List ReviewCard) (m : List (String × ReviewCardState))
    (now : Int) (r1 r2 : Rat) (h0 : 0 ≤ r1) (h1 : r1 < 1) (hne : learningPool cards m ≠ []) :
    ∃ c, getNextCard cards m now r1 r2 = some c ∧ c ∈ learningPool cards m ∧
      ∀ d ∈ learningPool cards m, seenOf m c ≤ seenOf m d :=
  getNextCard_learning_branch cards m now r1 r2 h0 h1 hne

/-- Witness for C6: with seenCounts a:0, b:3, c:0 the selected card has
the minimum seenCount 0 whatever the minimum bucket draw picks. -/
theorem fair_learning_selection_witness :
    ∃ c, getNextCard [cardA, cardB, cardC]
        [("a", learnState 0), ("b", learnState 3), ("c", learnState 0)] 0 (1/2) 0 = some c ∧
      c ∈ learningPool [cardA, cardB, cardC]
        [("a", learnState 0), ("b", learnState 3), ("c", learnState 0)] ∧
      ∀ d ∈ learningPool [cardA, cardB, cardC]
        [("a", learnState 0), ("b", learnState 3), ("c", learnState 0)],
        seenOf [("a", learnState 0), ("b", learnState 3), ("c", learnState 0)] c ≤
          seenOf [("a", learnState 0), ("b", learnState 3), ("c", learnState 0)] d := by
  apply fair_learning_selection
  · norm_num
  · norm_num
  · simp +decide [learningPool, objGet, learnState, initialReviewState, cardA, cardB, cardC, ReviewCard.id]

/-- C5: getNextCard returns null exactly when both pools are empty, and
any returned card belongs to the learning pool or to the due pool, so a
review card not yet due is never returned. -/
theorem null_iff_pools_empty (cards : List ReviewCard) (m : List (String × ReviewCardState))
    (now : Int) (r1 r2 : Rat) (h0 : 0 ≤ r1) (h1 : r1 < 1) :
    (getNextCard cards m now r1 r2 = none ↔
      learningPool cards m = [] ∧ duePool cards m now = []) ∧
    (∀ c, getNextCard cards m now r1 r2 = some c →
      c ∈ learningPool cards m ∨ c ∈ duePool cards m now) := by
  by_cases hlp : learningPool cards m = []
  · have hlpE : (learningPool cards m).isEmpty = true := by simp [hlp]
    by_cases hdp : duePool cards m now = []
    · have hdpE : (duePool cards m now).isEmpty = true := by simp [hdp]
      simp only [getNextCard, hlpE, if_true, hdpE]
      exact ⟨by simp [hlp, hdp], by intro c hc; simp at hc⟩
    · have hdpE : ¬ ((duePool cards m now).isEmpty = true) := by
        simpa [List.isEmpty_iff] using hdp
      have hres : getNextCard cards m now r1 r2 = weightedRandomByOverdue (duePool cards m now) m now r2 := by
        simp only [getNextCard, hlpE, if_true]
        rw [if_neg hdpE]
      constructor
      · rw [hres]
        constructor
        · intro hnone
          have := wrbo_isSome (duePool cards m now) m now r2 hdp
          rw [hnone] at this
          simp at this
        · intro ⟨_, hd⟩
          exact absurd hd hdp
      · intro c hc
        rw [hres] at hc
        exact Or.inr (wrbo_mem _ _ _ _ _ hc)
  · obtain ⟨c0, hc0, hcl, _⟩ := getNextCard_learning_branch cards m now r1 r2 h0 h1 hlp
    constructor
    · rw [hc0]
      constructor
      · intro h
        exact Option.noConfusion h
      · intro ⟨h, _⟩
        exact absurd h hlp
    · intro c hc
      rw [hc0] at hc
      cases hc
      exact Or.inl hcl

/-- Witness for C5 at concrete stores: with only a not-yet-due review
card the result is null and both pools are empty; a some result lands in
a pool. -/
theorem null_iff_pools_empty_witness :
    (getNextCard [cardA] [("a", reviewState 5 0)] 1 0 0 = none ↔
      learningPool [cardA] [("a", reviewState 5 0)] = [] ∧
      duePool [cardA] [("a", reviewState 5 0)] 1 = []) ∧
    (∀ c, getNextCard [cardA] [("a", reviewState 5 0)] 1 0 0 = some c →
      c ∈ learningPool [cardA] [("a", reviewState 5 0)] ∨
      c ∈ duePool [cardA] [("a", reviewState 5 0)] 1) :=
  null_iff_pools_empty [cardA] [("a", reviewState 5 0)] 1 0 0 (by norm_num) (by norm_num)

/-- C7 counterexample: a review card whose stored dueAt is exactly 0 is
in the due pool at now = 86400000, yet its computed weight is 1, not the
1 + overdueDays = 2 the claimed formula gives: the falsy guard
st?.dueAt || now replaces a 0 due date with now. -/
theorem weight_falsy_due_counterexample :
    (reviewState 0 0).phase = Phase.review ∧ (reviewState 0 0).dueAt ≤ 86400000 ∧
    weightOf [("a", reviewState 0 0)] 86400000 cardA = 1 ∧
    specWeight (reviewState 0 0) 86400000 = 2 ∧ (1 : Rat) ≠ 2 := by
  refine ⟨rfl, by decide, ?_, ?_, by norm_num⟩
  · simp +decide [weightOf, objGet, reviewState, cardA, ReviewCard.id]
  · norm_num [specWeight, reviewState]

/-- C7 amended: for a candidate whose state is present with dueAt ≠ 0
the weight is exactly 1 + max(0, (now - dueAt)/86400000) + lapses * 0.5
(when dueAt = 0 or the state is missing, the falsy guard substitutes now
and the overdue part collapses to 0); every candidate weighs at least 1,
and every position of the candidate list is selected by some draw in
[0, 1). -/
theorem overdue_weighting (m : List (String × ReviewCardState)) (now : Int) :
    (∀ c st, objGet m c.id = some st → st.dueAt ≠ 0 → weightOf m now c = specWeight st now) ∧
    (∀ c, 1 ≤ weightOf m now c) ∧
    (∀ cards : List ReviewCard, ∀ i, ∀ hi : i < cards.length,
      ∃ r, 0 ≤ r ∧ r < 1 ∧ weightedRandomByOverdue cards m now r = some (cards.get ⟨i, hi⟩)) := by
  refine ⟨?_, one_le_weightOf m now, fun cards i hi => wrbo_select cards m now i hi⟩
  intro c st hlook hdue
  simp only [weightOf, specWeight, hlook]
  rw [if_neg hdue]

/-- Witness for the amended C7: an overdue review card (one day late,
two lapses) weighs 1 + 1 + 1 = 3 by both the code and the formula, and
some draw selects it. -/
theorem overdue_weighting_witness :
    weightOf [("a", reviewState (1 - 86400000) 2)] 1 cardA =
      specWeight (reviewState (1 - 86400000) 2) 1 ∧
    (1 : Rat) ≤ weightOf [("a", reviewState (1 - 86400000) 2)] 1 cardA ∧
    ∃ r, 0 ≤ r ∧ r < 1 ∧
      weightedRandomByOverdue [cardA] [("a", reviewState (1 - 86400000) 2)] 1 r =
        some ([cardA].get ⟨0, by simp⟩) := by
  have h := overdue_weighting [("a", reviewState (1 - 86400000) 2)] 1
  exact ⟨h.1 cardA (reviewState (1 - 86400000) 2) rfl (by decide),
    h.2.1 cardA, h.2.2 [cardA] 0 (by simp)⟩

end DSA
